import Mathlib

/-!
Verification development for the Meta Lead Ads dashboard (`src/app.py`).

The claims under study concern three pieces of the source:

* `get_leads` (src/app.py lines 64-118): the paginated fetch loop against the
  Graph API.  Its interaction with the network is embedded by feeding it the
  list of page responses the server would produce, in order; the loop body is
  a direct translation of the Python `while` loop.  The fixed
  `time.sleep(0.12)` between pages is recorded as an abstract `Event.delay`
  in the produced event trace, and each HTTP GET as an `Event.request`.
* the first-request query parameters (src/app.py lines 69-84), embedded as
  `get_leads_params`.
* `parse_lead` (src/app.py lines 44-62): the per-lead flattening into a row.
  Python dictionaries are embedded as association lists with
  insertion-order / overwrite semantics (`dictInsert`), Python `None` and
  JSON `null` are both `JValue.null`, and a Python exception (the
  `IndexError` from `f.get("values", [None])[0]` on an empty list) is an
  `Option.none` result.
-/

set_option autoImplicit false
set_option maxRecDepth 8192

/-- One observable action of the fetch loop: an HTTP page request, or the
fixed inter-page sleep (`time.sleep(0.12)`, src/app.py line 116). -/
inductive Event where
  | request : Event
  | delay : Event
deriving DecidableEq, Repr

/-- The `error` object of a Graph API error body: `data.get("error", {})`
followed by `err.get("code")` / `err.get("message")` (src/app.py
lines 103-104). -/
structure GraphErrorBody where
  code : Option Int
  message : Option String
deriving DecidableEq, Repr

/-- A decoded JSON page body as `get_leads` reads it: the optional `error`
object, `data.get("data", [])` (the batch of leads, kept abstract of type
`α`), and whether `data.get("paging", {}).get("next")` is present. -/
structure PageBody (α : Type) where
  error : Option GraphErrorBody
  data : List α
  next : Bool
deriving DecidableEq, Repr

/-- One HTTP response of the server: status code, the decoded JSON body
(`none` when `resp.json()` raises `ValueError`), and the raw body text used
for the truncated snippet in the non-JSON error message. -/
structure PageResponse (α : Type) where
  status : Nat
  json : Option (PageBody α)
  text : String
deriving DecidableEq, Repr

/-- Outcome of a fetch call.  `ok` is a normal return, `protocolError` models
the `RuntimeError` raised on a non-JSON body (src/app.py line 100),
`apiError` the `RuntimeError` raised on a non-200 status (line 104).
`outOfResponses` is a model artifact: the loop wanted another page but the
supplied response script was exhausted; it never occurs for the well-formed
servers used in the theorems. -/
inductive FetchResult (α : Type) where
  | ok : List α → FetchResult α
  | protocolError : Nat → String → FetchResult α
  | apiError : Option Int → Option String → FetchResult α
  | outOfResponses : FetchResult α
deriving DecidableEq, Repr

/-- The pagination loop of `get_leads` (src/app.py lines 90-118), translated
clause by clause.  `collected` is the accumulator, `url` records whether a
URL to request is at hand (`base_url` initially, then `paging.get("next")`),
and the responses the server would give are consumed in order.  Returns the
result together with the trace of requests and inter-page delays. -/
def fetchLoop {α : Type} (limit : Nat) :
    List (PageResponse α) → List α → Bool → FetchResult α × List Event
  | [], collected, url =>
    if collected.length < limit ∧ url = true then (FetchResult.outOfResponses, [])
    else (FetchResult.ok (collected.take limit), [])
  | r :: rest, collected, url =>
    if collected.length < limit ∧ url = true then
      match r.json with
      | none => (FetchResult.protocolError r.status (r.text.take 300), [Event.request])
      | some body =>
        if r.status ≠ 200 then
          (FetchResult.apiError (body.error.bind GraphErrorBody.code)
            (body.error.bind GraphErrorBody.message), [Event.request])
        else
          match body.data with
          | [] => (FetchResult.ok (collected.take limit), [Event.request])
          | b :: bs =>
            let out := fetchLoop limit rest (collected ++ b :: bs) body.next
            (out.1, Event.request :: (if body.next then Event.delay :: out.2 else out.2))
    else (FetchResult.ok (collected.take limit), [])

/-- Entry into the loop as `get_leads` performs it: empty accumulator and a
URL at hand (`url = base_url`, src/app.py line 87; `first = True` only
selects whether query parameters accompany the request, which is modelled
separately by `get_leads_params`). -/
def get_leads (α : Type) (limit : Nat) (responses : List (PageResponse α)) :
    FetchResult α × List Event :=
  fetchLoop limit responses ([] : List α) true

/-- The per-request page size sent by `get_leads`:
`min(max(1, int(limit)), 100)` (src/app.py line 82). -/
def pageSize (limit : Nat) : Nat := min (max 1 limit) 100

/-- A successful JSON page carrying `batch` and a next cursor iff `nxt`. -/
def mkPage {α : Type} (batch : List α) (nxt : Bool) : PageResponse α :=
  { status := 200, json := some { error := none, data := batch, next := nxt }, text := "" }

/-- Fuelled canonical server: delivers the remaining leads in batches of
`max 1 p`, advertising a next cursor exactly while leads remain.  The fuel
only drives the recursion; `serverPages` supplies enough of it. -/
def serverPagesGo {α : Type} (p : Nat) : Nat → List α → List (PageResponse α)
  | _, [] => [mkPage ([] : List α) false]
  | 0, l => [mkPage (l.take (max 1 p)) (!(l.drop (max 1 p)).isEmpty)]
  | fuel + 1, l =>
    mkPage (l.take (max 1 p)) (!(l.drop (max 1 p)).isEmpty) ::
      (if (l.drop (max 1 p)).isEmpty then []
       else serverPagesGo p fuel (l.drop (max 1 p)))

/-- Canonical well-behaved server for a form holding `leads`: pages of size
`max 1 p` (the Graph API returns up to the requested page size per page),
with a next cursor exactly while more leads remain. -/
def serverPages {α : Type} (p : Nat) (leads : List α) : List (PageResponse α) :=
  serverPagesGo p leads.length leads

/-- The filtering clause `{"field": "time_created", "operator": "LESS_THAN",
"value": int(older_than)}` (src/app.py line 84). -/
structure FilterClause where
  field : String
  operator : String
  value : Int
deriving DecidableEq, Repr

/-- The query parameters of the first request of `get_leads`
(src/app.py lines 82-84). -/
structure InitParams where
  limitParam : Nat
  fieldsParam : String
  filtering : Option FilterClause
deriving DecidableEq, Repr

/-- The default `fields` list of `get_leads` (src/app.py lines 70-79). -/
def defaultFields : List String :=
  ["field_data", "created_time", "ad_id", "adset_id", "campaign_id",
   "is_organic", "platform", "id"]

/-- First-request parameter construction of `get_leads` (src/app.py
lines 69-84).  `if older_than:` is Python truthiness: `None` and `0` are
both falsy, so the filtering clause is added only for a nonzero value. -/
def get_leads_params (limit : Nat) (older_than : Option Int)
    (fields : Option (List String)) : InitParams :=
  { limitParam := min (max 1 limit) 100
    fieldsParam := String.intercalate (",") (fields.getD defaultFields)
    filtering :=
      match older_than with
      | none => none
      | some t =>
        if t = 0 then none
        else some { field := "time_created", operator := "LESS_THAN", value := t } }

/-- Boolean check used to state claim C5 as written: every `delay` in a
trace is followed (later) by at least one further `request`. -/
def delaysFollowed : List Event → Bool
  | [] => true
  | Event.delay :: rest => rest.contains Event.request && delaysFollowed rest
  | Event.request :: rest => delaysFollowed rest

/-- Alternation check: the trace is `request, delay, request, delay, ...`
starting with a request (stopping anywhere).  `altEvents true evs` means
`evs` is such an alternation expecting a request first. -/
def altEvents : Bool → List Event → Bool
  | _, [] => true
  | true, Event.request :: rest => altEvents false rest
  | false, Event.delay :: rest => altEvents true rest
  | _, _ => false

/-- A JSON value, as far as the flattening logic inspects one.  Python
`None` and JSON `null` are both `JValue.null`.  (JSON objects never reach
the inspected positions and are not modelled.) -/
inductive JValue where
  | null : JValue
  | bool : Bool → JValue
  | num : Int → JValue
  | str : String → JValue
  | arr : List JValue → JValue

/-- Python truthiness of a value, as used by the `or` fallbacks on
src/app.py lines 55-56. -/
def pyTruthy : JValue → Bool
  | JValue.null => false
  | JValue.bool b => b
  | JValue.num n => n != 0
  | JValue.str s => s != ""
  | JValue.arr xs => !xs.isEmpty

/-- Python `a or b`: `a` when truthy, else `b`. -/
def pyOr (a b : JValue) : JValue := if pyTruthy a then a else b

/-- Keys of an association list standing for a Python dict. -/
def keys {K V : Type} (d : List (K × V)) : List K := d.map Prod.fst

/-- Python dict assignment `d[k] = v`: overwrite in place when the key is
present, else append (insertion order preserved, as in CPython). -/
def dictInsert {K V : Type} [DecidableEq K] (d : List (K × V)) (k : K) (v : V) :
    List (K × V) :=
  if k ∈ keys d then d.map (fun kv => if kv.1 = k then (k, v) else kv)
  else d ++ [(k, v)]

/-- Python `d.get(k)` as an `Option` (keys are unique by construction, so
the first match is the binding). -/
def dictGet {K V : Type} [DecidableEq K] (d : List (K × V)) (k : K) : Option V :=
  (d.find? (fun kv => decide (kv.1 = k))).map Prod.snd

/-- Python `d.get(k)` with the absent case collapsed to a default (for
`fields.get(...)`, whose absent case is `None`, i.e. `JValue.null`). -/
def pyGet {K V : Type} [DecidableEq K] (d : List (K × V)) (k : K) (dflt : V) : V :=
  (dictGet d k).getD dflt

/-- One entry of a lead's `field_data` array.  `name` is `f.get("name")`
(`none` when the key is absent, standing for Python `None`); `values` is
the `"values"` key (`none` when absent, in which case the code falls back
to the default `[None]`). -/
structure FieldEntry where
  name : Option String
  values : Option (List JValue)

/-- The value the comprehension on src/app.py line 54 computes for one
entry: `f.get("values", [None])[0]`.  A present but empty `values` list
makes `[0]` raise `IndexError`, embedded as `none`. -/
def entryValue (f : FieldEntry) : Option JValue :=
  match f.values with
  | none => some JValue.null
  | some [] => none
  | some (v :: _) => some v

/-- The dict comprehension of src/app.py line 54, entry by entry in order,
with dict overwrite semantics; aborts (Python exception) as soon as one
entry's value raises. -/
def parseFieldsGo (d : List (Option String × JValue)) :
    List FieldEntry → Option (List (Option String × JValue))
  | [] => some d
  | e :: es =>
    match entryValue e with
    | none => none
    | some v => parseFieldsGo (dictInsert d e.name v) es

/-- `fields = {f.get("name"): f.get("values", [None])[0] for f in
lead.get("field_data", [])}` (src/app.py line 54). -/
def parseFields (entries : List FieldEntry) : Option (List (Option String × JValue)) :=
  parseFieldsGo [] entries

/-- A raw lead object as `parse_lead` reads it.  Each top-level `.get`
yields `JValue.null` when the key is absent; `field_data` defaults to the
empty list. -/
structure Lead where
  id : JValue
  created_time : JValue
  ad_id : JValue
  adset_id : JValue
  campaign_id : JValue
  platform : JValue
  is_organic : JValue
  field_data : List FieldEntry

/-- Rendering of a fields-dict key into the `row` dict key
`f"field__{k}"`; Python renders the `None` key as the string `"None"`. -/
def keyStr : Option String → String
  | some s => s
  | none => "None"

/-- The fixed columns of a parsed row (src/app.py lines 45-58). -/
def fixedCols : List String :=
  ["lead_id", "created_time", "ad_id", "adset_id", "campaign_id", "platform",
   "is_organic", "full_name", "phone_number", "email", "city"]

/-- The `row` dict of `parse_lead` up to src/app.py line 58: the seven
top-level columns (lines 45-53) and the four promoted alias columns
(lines 55-58), built with dict assignment semantics. -/
def baseRow (lead : Lead) (fields : List (Option String × JValue)) :
    List (String × JValue) :=
  let row0 : List (String × JValue) :=
    [("lead_id", lead.id), ("created_time", lead.created_time),
     ("ad_id", lead.ad_id), ("adset_id", lead.adset_id),
     ("campaign_id", lead.campaign_id), ("platform", lead.platform),
     ("is_organic", lead.is_organic)]
  dictInsert
    (dictInsert
      (dictInsert
        (dictInsert row0 ("full_name")
          (pyOr (pyGet fields (some ("full_name")) JValue.null)
            (pyGet fields (some ("name")) JValue.null)))
        ("phone_number")
        (pyOr (pyGet fields (some ("phone_number")) JValue.null)
          (pyGet fields (some ("phone")) JValue.null)))
      ("email") (pyGet fields (some ("email")) JValue.null))
    ("city") (pyGet fields (some ("city")) JValue.null)

/-- The loop `for k, v in fields.items(): row[f"field__{k}"] = v`
(src/app.py lines 60-61). -/
def rawFieldCols (r : List (String × JValue))
    (fields : List (Option String × JValue)) : List (String × JValue) :=
  fields.foldl (fun acc kv => dictInsert acc (("field__" : String) ++ keyStr kv.1) kv.2) r

/-- `parse_lead` (src/app.py lines 44-62): `none` models the function
raising a Python exception. -/
def parse_lead (lead : Lead) : Option (List (String × JValue)) :=
  match parseFields lead.field_data with
  | none => none
  | some fields => some (rawFieldCols (baseRow lead fields) fields)

theorem fetchLoop_stop {α : Type} (limit : Nat) (responses : List (PageResponse α))
    (collected : List α) (url : Bool) (h : ¬(collected.length < limit ∧ url = true)) :
    fetchLoop limit responses collected url = (FetchResult.ok (collected.take limit), []) := by
  cases responses with
  | nil => simp only [fetchLoop]; rw [if_neg h]
  | cons r rest => simp only [fetchLoop]; rw [if_neg h]

theorem fetchLoop_page_break {α : Type} (limit : Nat) (nxt : Bool)
    (rest : List (PageResponse α)) (collected : List α)
    (hc : collected.length < limit) :
    fetchLoop limit (mkPage ([] : List α) nxt :: rest) collected true
      = (FetchResult.ok (collected.take limit), [Event.request]) := by
  simp only [fetchLoop]
  rw [if_pos (show collected.length < limit ∧ True from ⟨hc, trivial⟩)]
  rfl

theorem fetchLoop_page_cons {α : Type} (limit : Nat) (b : α) (bs : List α) (nxt : Bool)
    (rest : List (PageResponse α)) (collected : List α)
    (hc : collected.length < limit) :
    fetchLoop limit (mkPage (b :: bs) nxt :: rest) collected true
      = ((fetchLoop limit rest (collected ++ b :: bs) nxt).1,
         Event.request ::
           (if nxt then Event.delay :: (fetchLoop limit rest (collected ++ b :: bs) nxt).2
            else (fetchLoop limit rest (collected ++ b :: bs) nxt).2)) := by
  simp only [fetchLoop]
  rw [if_pos (show collected.length < limit ∧ True from ⟨hc, trivial⟩)]
  rfl

theorem fetchLoop_ok_le {α : Type} (limit : Nat) :
    ∀ (responses : List (PageResponse α)) (collected : List α) (url : Bool)
      (rows : List α),
      (fetchLoop limit responses collected url).1 = FetchResult.ok rows →
        rows.length ≤ limit := by
  intro responses
  induction responses with
  | nil =>
    intro collected url rows h
    by_cases hcond : collected.length < limit ∧ url = true
    · simp only [fetchLoop] at h
      rw [if_pos hcond] at h
      simp at h
    · rw [fetchLoop_stop limit [] collected url hcond] at h
      injection h with h'
      exact h' ▸ List.length_take_le limit collected
  | cons r rest ih =>
    intro collected url rows h
    by_cases hcond : collected.length < limit ∧ url = true
    · obtain ⟨status, json, text⟩ := r
      cases json with
      | none =>
        simp only [fetchLoop] at h
        rw [if_pos hcond] at h
        simp at h
      | some body =>
        obtain ⟨err, data, nxt⟩ := body
        by_cases hs : status ≠ 200
        · simp only [fetchLoop] at h
          rw [if_pos hcond, if_pos hs] at h
          simp at h
        · simp only [fetchLoop] at h
          rw [if_pos hcond, if_neg hs] at h
          cases data with
          | nil =>
            injection h with h'
            exact h' ▸ List.length_take_le limit collected
          | cons b bs =>
            exact ih (collected ++ b :: bs) nxt rows h
    · rw [fetchLoop_stop limit _ collected url hcond] at h
      injection h with h'
      exact h' ▸ List.length_take_le limit collected

theorem fetchLoop_emptyServer {α : Type} (limit : Nat) (collected : List α) :
    (fetchLoop limit [mkPage ([] : List α) false] collected true).1
      = FetchResult.ok (collected.take limit) := by
  by_cases hc : collected.length < limit
  · rw [fetchLoop_page_break limit false [] collected hc]
  · rw [fetchLoop_stop limit _ collected true (by simp [hc])]

theorem fetchLoop_serverGo {α : Type} (p limit : Nat) :
    ∀ (fuel : Nat) (rem : List α), rem.length ≤ fuel →
      ∀ collected : List α,
        (fetchLoop limit (serverPagesGo p fuel rem) collected true).1
          = FetchResult.ok ((collected ++ rem).take limit) := by
  intro fuel
  induction fuel with
  | zero =>
    intro rem hlen collected
    have hrem : rem = [] := List.eq_nil_of_length_eq_zero (Nat.le_zero.mp hlen)
    subst hrem
    rw [show serverPagesGo p 0 ([] : List α) = [mkPage ([] : List α) false] from rfl]
    rw [fetchLoop_emptyServer]
    simp
  | succ fuel ih =>
    intro rem hlen collected
    cases rem with
    | nil =>
      rw [show serverPagesGo p (fuel + 1) ([] : List α) = [mkPage ([] : List α) false]
        from rfl]
      rw [fetchLoop_emptyServer]
      simp
    | cons a rem' =>
      by_cases hc : collected.length < limit
      · obtain ⟨q', hq'⟩ : ∃ q', max 1 p = q' + 1 :=
          ⟨max 1 p - 1, by have h1 : 1 ≤ max 1 p := Nat.le_max_left 1 p; omega⟩
        rw [show serverPagesGo p (fuel + 1) (a :: rem')
            = mkPage ((a :: rem').take (max 1 p)) (!((a :: rem').drop (max 1 p)).isEmpty) ::
              (if ((a :: rem').drop (max 1 p)).isEmpty then []
               else serverPagesGo p fuel ((a :: rem').drop (max 1 p))) from rfl]
        rw [hq', List.take_succ_cons, List.drop_succ_cons]
        by_cases hdrop : (rem'.drop q').isEmpty
        · rw [if_pos hdrop]
          have hnil : rem'.drop q' = [] := List.isEmpty_iff.mp hdrop
          rw [hnil]
          have htk : rem'.take q' = rem' :=
            List.take_of_length_le (List.drop_eq_nil_iff.mp hnil)
          rw [htk]
          simp only [List.isEmpty_nil, Bool.not_true]
          rw [fetchLoop_page_cons limit a rem' false [] collected hc]
          show (fetchLoop limit [] (collected ++ a :: rem') false).1
            = FetchResult.ok (List.take limit (collected ++ a :: rem'))
          rw [fetchLoop_stop limit [] (collected ++ a :: rem') false (by simp)]
        · rw [if_neg hdrop]
          have hne : rem'.drop q' ≠ [] := fun hx => hdrop (by rw [hx]; rfl)
          have hbn : (!(rem'.drop q').isEmpty) = true := by
            rw [Bool.not_eq_true', ← Bool.not_eq_true]
            intro hx
            exact hdrop hx
          rw [hbn]
          rw [fetchLoop_page_cons limit a (rem'.take q') true
            (serverPagesGo p fuel (rem'.drop q')) collected hc]
          have hlen' : (rem'.drop q').length ≤ fuel := by
            rw [List.length_drop]
            have : rem'.length ≤ fuel := by
              have := hlen
              simp only [List.length_cons] at this
              omega
            omega
          rw [ih (rem'.drop q') hlen' (collected ++ a :: rem'.take q')]
          congr 1
          rw [List.append_assoc]
          simp [List.cons_append, List.take_append_drop]
      · rw [fetchLoop_stop limit _ collected true (by simp [hc])]
        have hle : limit ≤ collected.length := Nat.le_of_not_lt hc
        rw [List.take_append_eq_append_take, Nat.sub_eq_zero_of_le hle]
        simp

theorem altEvents_fetchLoop {α : Type} (limit : Nat) :
    ∀ (responses : List (PageResponse α)) (collected : List α) (url : Bool),
      altEvents true (fetchLoop limit responses collected url).2 = true := by
  intro responses
  induction responses with
  | nil =>
    intro collected url
    simp only [fetchLoop]
    split
    · rfl
    · rfl
  | cons r rest ih =>
    intro collected url
    by_cases hcond : collected.length < limit ∧ url = true
    · obtain ⟨status, json, text⟩ := r
      cases json with
      | none =>
        simp only [fetchLoop]
        rw [if_pos hcond]
        rfl
      | some body =>
        obtain ⟨err, data, nxt⟩ := body
        by_cases hs : status ≠ 200
        · simp only [fetchLoop]
          rw [if_pos hcond, if_pos hs]
          rfl
        · simp only [fetchLoop]
          rw [if_pos hcond, if_neg hs]
          cases data with
          | nil => rfl
          | cons b bs =>
            cases nxt with
            | true => exact ih (collected ++ b :: bs) true
            | false =>
              show altEvents true
                (Event.request :: (fetchLoop limit rest (collected ++ b :: bs) false).2)
                = true
              rw [fetchLoop_stop limit rest (collected ++ b :: bs) false (by simp)]
              rfl
    · rw [fetchLoop_stop limit _ collected url hcond]
      rfl

theorem keys_map_replace {K V : Type} [DecidableEq K] (d : List (K × V)) (k : K) (v : V) :
    keys (d.map (fun kv => if kv.1 = k then (k, v) else kv)) = keys d := by
  simp only [keys, List.map_map]
  apply List.map_congr_left
  intro a _
  by_cases h : a.1 = k
  · simp [h]
  · simp [h]

theorem mem_keys_dictInsert {K V : Type} [DecidableEq K] (d : List (K × V))
    (k k' : K) (v : V) :
    k' ∈ keys (dictInsert d k v) ↔ k' = k ∨ k' ∈ keys d := by
  unfold dictInsert
  by_cases hk : k ∈ keys d
  · rw [if_pos hk, keys_map_replace]
    constructor
    · intro h
      exact Or.inr h
    · rintro (rfl | h)
      · exact hk
      · exact h
  · rw [if_neg hk]
    simp only [keys, List.map_append, List.mem_append, List.map_cons, List.map_nil,
      List.mem_singleton]
    rw [or_comm]

theorem parseFieldsGo_isSome :
    ∀ (entries : List FieldEntry) (d : List (Option String × JValue)),
      (∀ e ∈ entries, e.values ≠ some []) → (parseFieldsGo d entries).isSome = true := by
  intro entries
  induction entries with
  | nil =>
    intro d _
    rfl
  | cons e es ih =>
    intro d h
    have he : e.values ≠ some [] := h e (List.mem_cons_self e es)
    cases hv : e.values with
    | none =>
      simp only [parseFieldsGo, entryValue, hv]
      exact ih _ (fun x hx => h x (List.mem_cons_of_mem e hx))
    | some l =>
      cases l with
      | nil => exact absurd hv he
      | cons v vs =>
        simp only [parseFieldsGo, entryValue, hv]
        exact ih _ (fun x hx => h x (List.mem_cons_of_mem e hx))

theorem keys_baseRow (lead : Lead) (fields : List (Option String × JValue)) :
    keys (baseRow lead fields) = fixedCols := rfl

theorem mem_keys_rawFieldCols_of_mem (m : String) :
    ∀ (fields : List (Option String × JValue)) (r : List (String × JValue)),
      m ∈ keys r → m ∈ keys (rawFieldCols r fields) := by
  intro fields
  induction fields with
  | nil =>
    intro r h
    exact h
  | cons kv fs ih =>
    intro r h
    show m ∈ keys (rawFieldCols (dictInsert r (("field__" : String) ++ keyStr kv.1) kv.2) fs)
    exact ih _ ((mem_keys_dictInsert _ _ _ _).mpr (Or.inr h))

theorem mem_keys_rawFieldCols_elim (m : String) :
    ∀ (fields : List (Option String × JValue)) (r : List (String × JValue)),
      m ∈ keys (rawFieldCols r fields) →
        m ∈ keys r ∨ ∃ s, m = ("field__" : String) ++ s := by
  intro fields
  induction fields with
  | nil =>
    intro r h
    exact Or.inl h
  | cons kv fs ih =>
    intro r h
    have h' : m ∈ keys (rawFieldCols (dictInsert r (("field__" : String) ++ keyStr kv.1) kv.2) fs) := h
    rcases ih _ h' with hmem | hex
    · rcases (mem_keys_dictInsert _ _ _ _).mp hmem with rfl | hr
      · exact Or.inr ⟨keyStr kv.1, rfl⟩
      · exact Or.inl hr
    · exact Or.inr hex

theorem fetchLoop_page_err {α : Type} (limit status : Nat) (err : Option GraphErrorBody)
    (data : List α) (nxt : Bool) (text : String) (rest : List (PageResponse α))
    (collected : List α) (hstatus : status ≠ 200) (hlive : collected.length < limit) :
    fetchLoop limit
      ({ status := status, json := some { error := err, data := data, next := nxt },
         text := text } :: rest) collected true
      = (FetchResult.apiError (err.bind GraphErrorBody.code)
          (err.bind GraphErrorBody.message), [Event.request]) := by
  simp only [fetchLoop]
  rw [if_pos (show collected.length < limit ∧ True from ⟨hlive, trivial⟩), if_pos hstatus]

theorem fetchLoop_page_nonjson {α : Type} (limit status : Nat) (text : String)
    (rest : List (PageResponse α)) (collected : List α)
    (hlive : collected.length < limit) :
    fetchLoop limit (({ status := status, json := none, text := text } : PageResponse α)
        :: rest) collected true
      = (FetchResult.protocolError status (text.take 300), [Event.request]) := by
  simp only [fetchLoop]
  rw [if_pos (show collected.length < limit ∧ True from ⟨hlive, trivial⟩)]

theorem fetchLoop_page_emptyBatch {α : Type} (limit : Nat) (err : Option GraphErrorBody)
    (nxt : Bool) (text : String) (rest : List (PageResponse α)) (collected : List α)
    (hlive : collected.length < limit) :
    fetchLoop limit
      ({ status := 200, json := some { error := err, data := ([] : List α), next := nxt },
         text := text } :: rest) collected true
      = (FetchResult.ok (collected.take limit), [Event.request]) := by
  simp only [fetchLoop]
  rw [if_pos (show collected.length < limit ∧ True from ⟨hlive, trivial⟩),
    if_neg (show ¬((200 : Nat) ≠ 200) from fun hx => hx rfl)]

/-!
Claim theorems.
-/

/-- C1: for a fetch with `limit = N` against a well-behaved server holding
`leads` (pages of the requested page size `min(max(1, N), 100)`, a next
cursor exactly while leads remain, every request succeeding), `get_leads`
returns exactly the first `N` available leads, so the row count is
`min N total_available`; moreover, for an arbitrary server script, any
normal return carries at most `N` rows (the final `collected[:limit]`
truncation handles an overshooting last batch). -/
theorem get_leads_count (α : Type) (limit : Nat) (leads : List α) :
    (get_leads α limit (serverPages (pageSize limit) leads)).1
        = FetchResult.ok (leads.take limit)
    ∧ (leads.take limit).length = min limit leads.length
    ∧ ∀ (responses : List (PageResponse α)) (rows : List α),
        (get_leads α limit responses).1 = FetchResult.ok rows → rows.length ≤ limit := by
  refine ⟨?_, ?_, ?_⟩
  · have h := fetchLoop_serverGo (pageSize limit) limit leads.length leads
      (Nat.le_refl _) []
    simpa [get_leads, serverPages] using h
  · exact List.length_take limit leads
  · intro responses rows h
    exact fetchLoop_ok_le limit responses [] true rows h

theorem get_leads_count_witness :
    (get_leads Nat 2 (serverPages (pageSize 2) [5, 6, 7])).1 = FetchResult.ok [5, 6]
    ∧ ([5, 6] : List Nat).length ≤ 2 :=
  ⟨(get_leads_count Nat 2 [5, 6, 7]).1,
   (get_leads_count Nat 2 [5, 6, 7]).2.2 (serverPages (pageSize 2) [5, 6, 7]) [5, 6]
     (by decide)⟩

/-- C2: when a reached page response has a JSON body but a status other
than 200, the whole call fails with the `ApiError` outcome carrying
`error.code` and `error.message` from the body, and no rows are returned:
the `collected` accumulator — universally quantified here, standing for all
rows gathered in earlier successful iterations — is discarded, and the
result is never a normal `ok` return. -/
theorem get_leads_apiError_discards (α : Type) (limit : Nat) (r : PageResponse α)
    (body : PageBody α) (rest : List (PageResponse α)) (collected : List α)
    (hjson : r.json = some body) (hstatus : r.status ≠ 200)
    (hlive : collected.length < limit) :
    fetchLoop limit (r :: rest) collected true
      = (FetchResult.apiError (body.error.bind GraphErrorBody.code)
          (body.error.bind GraphErrorBody.message), [Event.request])
    ∧ ∀ rows : List α,
        (fetchLoop limit (r :: rest) collected true).1 ≠ FetchResult.ok rows := by
  have hmain : fetchLoop limit (r :: rest) collected true
      = (FetchResult.apiError (body.error.bind GraphErrorBody.code)
          (body.error.bind GraphErrorBody.message), [Event.request]) := by
    obtain ⟨status, json, text⟩ := r
    cases json with
    | none => exact Option.noConfusion hjson
    | some b =>
      have hb : b = body := Option.some.inj hjson
      subst hb
      obtain ⟨err, data, nxt⟩ := b
      exact fetchLoop_page_err limit status err data nxt text rest collected hstatus hlive
  refine ⟨hmain, ?_⟩
  intro rows hcontra
  rw [hmain] at hcontra
  exact FetchResult.noConfusion hcontra

theorem get_leads_apiError_discards_witness :
    fetchLoop 5
      (({ status := 400,
          json := some { error := some { code := some 190, message := some ("Invalid token") },
                         data := [], next := false },
          text := "" } : PageResponse Nat) :: []) [7] true
      = (FetchResult.apiError (some 190) (some ("Invalid token")), [Event.request])
    ∧ (fetchLoop 5
        (({ status := 400,
            json := some { error := some { code := some 190, message := some ("Invalid token") },
                           data := [], next := false },
            text := "" } : PageResponse Nat) :: []) [7] true).1
      ≠ FetchResult.ok [7] := by
  have h := get_leads_apiError_discards Nat 5
    ({ status := 400,
       json := some { error := some { code := some 190, message := some ("Invalid token") },
                      data := [], next := false },
       text := "" } : PageResponse Nat)
    { error := some { code := some 190, message := some ("Invalid token") },
      data := [], next := false }
    [] [7] rfl (by decide) (by decide)
  exact ⟨h.1, h.2 [7]⟩

/-- C3 counterexample: `parse_lead` computes `f.get("values", [None])[0]`
(src/app.py line 54), so for an entry with the two-element values list
`["a", "b"]` the flattened value stored under `field__choices` is the
string `"a"`, which is not the full sequence `["a", "b"]` — refuting the
claim that multi-element values are kept as the whole sequence. -/
theorem parse_lead_multivalue_counterexample :
    Option.bind
      (parse_lead ⟨JValue.null, JValue.null, JValue.null, JValue.null, JValue.null,
        JValue.null, JValue.null,
        [⟨some ("choices"), some [JValue.str ("a"), JValue.str ("b")]⟩]⟩)
      (fun r => dictGet r ("field__choices")) = some (JValue.str ("a"))
    ∧ JValue.str ("a") ≠ JValue.arr [JValue.str ("a"), JValue.str ("b")] := by
  refine ⟨rfl, ?_⟩
  intro h
  exact JValue.noConfusion h

/-- C3 (amended): for a single-element values list the flattened value is
the sole element, as claimed; but for any nonempty values list — including
multi-element ones — the flattened value is the FIRST element, never the
full sequence. -/
theorem entryValue_takes_head (n : Option String) (v : JValue) (vs : List JValue) :
    entryValue { name := n, values := some [v] } = some v
    ∧ entryValue { name := n, values := some (v :: vs) } = some v :=
  ⟨rfl, rfl⟩

/-- C4 counterexample: a lead whose `field_data` holds an entry with a
present but empty `values` list makes `f.get("values", [None])[0]` raise
`IndexError` (the `[None]` default only guards a missing key), so
`parse_lead` is not total: it fails on this input instead of producing a
row. -/
theorem parse_lead_empty_values_counterexample :
    parse_lead ⟨JValue.null, JValue.null, JValue.null, JValue.null, JValue.null,
      JValue.null, JValue.null, [⟨some ("x"), some []⟩]⟩ = none := rfl

/-- C4 (amended): `parse_lead` returns a row without failing for every lead
whose `field_data` entries never carry a present-but-empty `values` list;
missing top-level fields, a missing `field_data`, missing entry names and
missing `values` keys all degrade to null/absent values. -/
theorem parse_lead_total_amended (lead : Lead)
    (h : ∀ e ∈ lead.field_data, e.values ≠ some []) :
    (parse_lead lead).isSome = true := by
  unfold parse_lead parseFields
  have hs := parseFieldsGo_isSome lead.field_data [] h
  cases hp : parseFieldsGo [] lead.field_data with
  | none => rw [hp] at hs; exact absurd hs (by simp)
  | some fields => rfl

theorem parse_lead_total_amended_witness :
    (parse_lead ⟨JValue.str ("42"), JValue.null, JValue.null, JValue.null, JValue.null,
      JValue.null, JValue.null,
      [⟨some ("email"), some [JValue.str ("a@b.c")]⟩, ⟨some ("city"), none⟩]⟩).isSome
      = true :=
  parse_lead_total_amended _ (by
    intro e he
    rcases List.mem_cons.mp he with rfl | he'
    · simp
    · rcases List.mem_cons.mp he' with rfl | he''
      · simp
      · cases he'')

/-- C5 counterexample: with 2 available leads, `limit = 1` and page size 1,
the only request already reaches the limit but reports a next cursor, so
the loop sleeps once after it and then exits: the produced trace is
`[request, delay]`, whose final delay is followed by no request — refuting
the claim that no delay is issued that is not followed by a subsequent
request. -/
theorem get_leads_trailing_delay_counterexample :
    (get_leads Nat 1 (serverPages (pageSize 1) [0, 1])).2 = [Event.request, Event.delay]
    ∧ delaysFollowed (get_leads Nat 1 (serverPages (pageSize 1) [0, 1])).2 = false :=
  ⟨rfl, rfl⟩

/-- C5 (amended): requests and delays strictly alternate starting with a
request: no delay is ever issued before the first request, and exactly one
fixed (`time.sleep(0.12)`, ≈120ms) delay separates every two consecutive
requests; however, a single trailing delay may follow the final request
when that response carries a next cursor while the limit is already
reached. -/
theorem get_leads_events_alternate (α : Type) (limit : Nat)
    (responses : List (PageResponse α)) :
    altEvents true (get_leads α limit responses).2 = true :=
  altEvents_fetchLoop limit responses [] true

/-- C6 counterexample: for the spec scenario — 250 available leads,
`limit = 100`, page size defaulting to `min(max(1,100),100) = 100` — the
first page already reaches the limit, so the loop issues 1 paged request
and 1 delay, not the claimed 3 requests and 2 inter-page delays. -/
theorem get_leads_scenario250_counterexample :
    (get_leads Nat 100 (serverPages (pageSize 100) (List.range 250))).2.count Event.request = 1
    ∧ (get_leads Nat 100 (serverPages (pageSize 100) (List.range 250))).2.count Event.delay = 1
    ∧ ¬((get_leads Nat 100 (serverPages (pageSize 100) (List.range 250))).2.count
          Event.request = 3
        ∧ (get_leads Nat 100 (serverPages (pageSize 100) (List.range 250))).2.count
            Event.delay = 2) := by
  refine ⟨rfl, rfl, ?_⟩
  intro hc
  exact absurd hc.1 (by decide)

/-- C6 (amended): for a form with 250 available leads, `limit = 100` and
page size defaulting to 100, the fetch issues exactly 1 paged request
followed by 1 delay (a next cursor is present while the limit is already
reached) and returns exactly 100 rows. -/
theorem get_leads_scenario250_amended :
    (get_leads Nat 100 (serverPages (pageSize 100) (List.range 250))).1
        = FetchResult.ok (List.take 100 (List.range 250))
    ∧ (List.take 100 (List.range 250)).length = 100
    ∧ (get_leads Nat 100 (serverPages (pageSize 100) (List.range 250))).2
        = [Event.request, Event.delay] :=
  ⟨rfl, by decide, rfl⟩

/-- C7 counterexample: `0` is a syntactically valid epoch value, but
`if older_than:` is Python truthiness, under which `0` is falsy — so for
`older_than = 0` no filtering parameter is sent, refuting the claim for
that epoch value. -/
theorem get_leads_params_zero_counterexample :
    (get_leads_params 50 (some 0) none).filtering = none
    ∧ (get_leads_params 50 (some 0) none).filtering
        ≠ some { field := "time_created", operator := "LESS_THAN", value := (0 : Int) } := by
  refine ⟨rfl, ?_⟩
  intro h
  exact Option.noConfusion h

/-- C7 (amended): when `older_than` is set to a NONZERO epoch value `T`,
the first request's parameters hold `limit = min(max(1, N), 100)`, the
comma-joined fields, and a filtering parameter encoding exactly the single
clause `{field: "time_created", operator: "LESS_THAN", value: T}`; when
`older_than` is not set — or set to `0`, which Python truthiness treats as
unset — no filtering parameter is sent. -/
theorem get_leads_params_filtering (limit : Nat) (fields : Option (List String))
    (t : Int) (ht : t ≠ 0) :
    (get_leads_params limit (some t) fields).filtering
        = some { field := "time_created", operator := "LESS_THAN", value := t }
    ∧ (get_leads_params limit none fields).filtering = none
    ∧ (get_leads_params limit (some t) fields).limitParam = min (max 1 limit) 100
    ∧ (get_leads_params limit (some t) fields).fieldsParam
        = String.intercalate (",") (fields.getD defaultFields) := by
    refine ⟨?_, rfl, rfl, rfl⟩
    simp only [get_leads_params]
    rw [if_neg ht]

theorem get_leads_params_filtering_witness :
    (get_leads_params 50 (some 7) none).filtering
        = some { field := "time_created", operator := "LESS_THAN", value := (7 : Int) }
    ∧ (get_leads_params 50 none none).filtering = none
    ∧ (get_leads_params 50 (some 7) none).limitParam = min (max 1 50) 100
    ∧ (get_leads_params 50 (some 7) none).fieldsParam
        = String.intercalate (",") (Option.getD none defaultFields) :=
  get_leads_params_filtering 50 none 7 (by decide)

/-- C8: the loop runs only while the accumulated row count is below the
limit AND a next URL exists (first two conjuncts: reaching the limit, or
the absence of a cursor, ends the call normally with the truncated rows
and no further requests), and an empty batch on a live iteration breaks
out of the loop, returning the rows accumulated so far as a normal `ok`
result — exhaustion, not an error. -/
theorem get_leads_loop_exhaustion (α : Type) (limit : Nat) :
    (∀ (responses : List (PageResponse α)) (collected : List α),
        limit ≤ collected.length →
          fetchLoop limit responses collected true
            = (FetchResult.ok (collected.take limit), []))
    ∧ (∀ (responses : List (PageResponse α)) (collected : List α),
        fetchLoop limit responses collected false
          = (FetchResult.ok (collected.take limit), []))
    ∧ (∀ (r : PageResponse α) (body : PageBody α) (rest : List (PageResponse α))
          (collected : List α),
        r.json = some body → r.status = 200 → body.data = [] →
          collected.length < limit →
            fetchLoop limit (r :: rest) collected true
              = (FetchResult.ok (collected.take limit), [Event.request])) := by
  refine ⟨?_, ?_, ?_⟩
  · intro responses collected h
    exact fetchLoop_stop limit responses collected true
      (fun hc => absurd hc.1 (Nat.not_lt.mpr h))
  · intro responses collected
    exact fetchLoop_stop limit responses collected false (by simp)
  · intro r body rest collected hjson hstatus hdata hlive
    obtain ⟨status, json, text⟩ := r
    cases json with
    | none => exact Option.noConfusion hjson
    | some b =>
      have hb : b = body := Option.some.inj hjson
      subst hb
      obtain ⟨err, data, nxt⟩ := b
      have hdata' : data = [] := hdata
      subst hdata'
      have hstatus' : status = 200 := hstatus
      subst hstatus'
      exact fetchLoop_page_emptyBatch limit err nxt text rest collected hlive

def emptyBatchBody : PageBody Nat := { error := none, data := [], next := true }

def emptyBatchResp : PageResponse Nat :=
  { status := 200, json := some emptyBatchBody, text := "" }

theorem get_leads_loop_exhaustion_witness :
    fetchLoop 5 ([] : List (PageResponse Nat)) [7, 8, 9, 10, 11] true
      = (FetchResult.ok [7, 8, 9, 10, 11], [])
    ∧ fetchLoop 5 ([] : List (PageResponse Nat)) [1] false = (FetchResult.ok [1], [])
    ∧ fetchLoop 5 (emptyBatchResp :: []) [1] true
      = (FetchResult.ok [1], [Event.request]) :=
  ⟨(get_leads_loop_exhaustion Nat 5).1 [] [7, 8, 9, 10, 11] (by decide),
   (get_leads_loop_exhaustion Nat 5).2.1 [] [1],
   (get_leads_loop_exhaustion Nat 5).2.2 emptyBatchResp emptyBatchBody
     [] [1] rfl rfl rfl (by decide)⟩

/-- C9: when a reached page response's body is not valid JSON, the call
fails with the `ProtocolError` outcome carrying the HTTP status code and
the body snippet truncated to 300 characters (`resp.text[:300]`), fatal to
the current call: no rows are returned, whatever was already accumulated. -/
theorem get_leads_protocolError (α : Type) (limit : Nat) (r : PageResponse α)
    (rest : List (PageResponse α)) (collected : List α)
    (hjson : r.json = none) (hlive : collected.length < limit) :
    fetchLoop limit (r :: rest) collected true
      = (FetchResult.protocolError r.status (r.text.take 300), [Event.request])
    ∧ ∀ rows : List α,
        (fetchLoop limit (r :: rest) collected true).1 ≠ FetchResult.ok rows := by
  have hmain : fetchLoop limit (r :: rest) collected true
      = (FetchResult.protocolError r.status (r.text.take 300), [Event.request]) := by
    obtain ⟨status, json, text⟩ := r
    cases json with
    | none => exact fetchLoop_page_nonjson limit status text rest collected hlive
    | some b => exact Option.noConfusion hjson
  refine ⟨hmain, ?_⟩
  intro rows hcontra
  rw [hmain] at hcontra
  exact FetchResult.noConfusion hcontra

theorem get_leads_protocolError_witness :
    fetchLoop 5 (({ status := 500, json := none, text := "<html>oops" }
        : PageResponse Nat) :: []) [3] true
      = (FetchResult.protocolError 500 (("<html>oops" : String).take 300), [Event.request])
    ∧ (fetchLoop 5 (({ status := 500, json := none, text := "<html>oops" }
        : PageResponse Nat) :: []) [3] true).1 ≠ FetchResult.ok [3] := by
  have h := get_leads_protocolError Nat 5
    ({ status := 500, json := none, text := "<html>oops" } : PageResponse Nat)
    [] [3] rfl (by decide)
  exact ⟨h.1, h.2 [3]⟩

/-- C10: every row produced by `parse_lead` contains all eleven fixed
columns (lead_id, created_time, ad_id, adset_id, campaign_id, platform,
is_organic, full_name, phone_number, email, city), whatever the input lead
carries, and every other column of the row is prefixed with `field__`. -/
theorem parse_lead_columns (lead : Lead) (row : List (String × JValue))
    (h : parse_lead lead = some row) :
    (∀ c ∈ fixedCols, c ∈ keys row)
    ∧ ∀ k ∈ keys row, k ∈ fixedCols ∨ ∃ s, k = ("field__" : String) ++ s := by
  unfold parse_lead at h
  cases hp : parseFields lead.field_data with
  | none =>
    rw [hp] at h
    exact absurd h (by simp)
  | some fields =>
    rw [hp] at h
    have hrow : rawFieldCols (baseRow lead fields) fields = row := by
      injection h
    subst hrow
    constructor
    · intro c hc
      apply mem_keys_rawFieldCols_of_mem
      rw [keys_baseRow]
      exact hc
    · intro k hk
      rcases mem_keys_rawFieldCols_elim k fields (baseRow lead fields) hk with hmem | hex
      · rw [keys_baseRow] at hmem
        exact Or.inl hmem
      · exact Or.inr hex

theorem parse_lead_columns_witness :
    (∀ c ∈ fixedCols,
      c ∈ keys (baseRow ⟨JValue.null, JValue.null, JValue.null, JValue.null, JValue.null,
        JValue.null, JValue.null, []⟩ []))
    ∧ ∀ k ∈ keys (baseRow ⟨JValue.null, JValue.null, JValue.null, JValue.null, JValue.null,
        JValue.null, JValue.null, []⟩ []),
        k ∈ fixedCols ∨ ∃ s, k = ("field__" : String) ++ s :=
  parse_lead_columns
    ⟨JValue.null, JValue.null, JValue.null, JValue.null, JValue.null, JValue.null,
      JValue.null, []⟩
    (baseRow ⟨JValue.null, JValue.null, JValue.null, JValue.null, JValue.null, JValue.null,
      JValue.null, []⟩ [])
    rfl
